import Mathlib

/-!
Shallow embedding of the interactive visualization engine of
`miletich/d3-weather-scatterplot` (`src/main.ts`), over exact rational
arithmetic (`ℚ` stands for the JavaScript IEEE doubles; every modelled
value is finite, so "finite accessor value" means "every value" here).

The embedding follows the source: the d3 collaborators that the engine
calls (`d3.extent`, `d3.median`, `d3.ticks`/`tickIncrement`, linear
scale `nice`/`invert`, `d3.bin`) are translated from the d3 library
code that ships with the repository's `d3` dependency (d3 v7), since
their exact behaviour is what the engine's contracts are about.
-/

namespace WeatherScatter

/-! ## Geometry constants (src/main.ts lines 40-43, 225, 350) -/

def histogramMargin : ℚ := 10
def histogramHeight : ℚ := 70
def legendWidth : ℚ := 250
def legendHeight : ℚ := 26

/-- `legendWidth * 0.05` (src/main.ts line 225). -/
def legendHighlightBarWidth : ℚ := legendWidth * (5 / 100)

def hoverLineThickness : ℚ := 10

/-! ## Data model

A JavaScript `Date` is modelled by its calendar year together with the
milliseconds elapsed since the start of that year: this is exactly the
decomposition that `Date.prototype.setFullYear` acts on (it replaces
the year and keeps the rest). -/

structure JsDate where
  year : ℤ
  msOfYear : ℚ
deriving DecidableEq, Repr

/-- Leap years before (strictly) year `y`, proleptic Gregorian, matching
the JavaScript `Date` calendar. -/
def leapsBefore (y : ℤ) : ℤ :=
  (y - 1).fdiv 4 - (y - 1).fdiv 100 + (y - 1).fdiv 400

/-- Days from the Unix epoch (1970-01-01) to the start of year `y`. -/
def daysFromEpoch (y : ℤ) : ℤ :=
  365 * (y - 1970) + (leapsBefore y - leapsBefore 1970)

def msPerDay : ℚ := 86400000

/-- The numeric value of a `Date` (epoch milliseconds), as used when a
`Date` is coerced to a number (e.g. as a scale-domain endpoint). -/
def JsDate.getTime (d : JsDate) : ℚ :=
  (daysFromEpoch d.year : ℚ) * msPerDay + d.msOfYear

/-- `Date.prototype.setFullYear`: replaces the year, keeps the rest of
the date, mutating the object in place (the new object is the mutated
state; the JS call also returns the new time value). -/
def JsDate.setFullYear (d : JsDate) (y : ℤ) : JsDate :=
  { d with year := y }

/-- `Datum` (src/main.ts lines 5-9). -/
structure Datum where
  tempmin : ℚ
  tempmax : ℚ
  datetime : JsDate
deriving DecidableEq, Repr

/-- `xAccessor` (src/main.ts line 70). -/
def xAccessor (d : Datum) : ℚ := d.tempmin

/-- `yAccessor` (src/main.ts line 71). -/
def yAccessor (d : Datum) : ℚ := d.tempmax

/-- `colorScaleYear` (src/main.ts line 74). -/
def colorScaleYear : ℤ := 2000

/-- `colorAccessor` (src/main.ts line 75): `d.datetime.setFullYear(2000)`.
`setFullYear` mutates the stored date in place and returns the new
timestamp, so the accessor is a state transformer on the datum: it
returns the numeric value used by the color scale together with the
datum as it is left after the call. -/
def colorAccessorRun (d : Datum) : ℚ × Datum :=
  let nd := d.datetime.setFullYear colorScaleYear
  (nd.getTime, { d with datetime := nd })

/-! ## d3 collaborators: extent, median, linear scales -/

/-- `d3.extent` over a numeric list: `none` on an empty list (the JS
function yields `[undefined, undefined]` there), otherwise the
`(min, max)` pair. -/
def extentList (l : List ℚ) : Option (ℚ × ℚ) :=
  match l with
  | [] => none
  | x :: xs => some (xs.foldl min x, xs.foldl max x)

/-- `d3.median` of a three-element array: d3 sorts the (defined) values
ascending and takes the 0.5 quantile, which for three values is the
middle element of the sorted list. -/
def d3Median3 (a b c : ℚ) : ℚ :=
  (List.insertionSort (· ≤ ·) [a, b, c]).getD 1 0

/-- Forward application of a d3 linear scale with the given domain and
range; a degenerate domain maps everything to the middle of the range
(d3's `normalize` yields the constant 1/2 there). -/
def linearApply (dom rng : ℚ × ℚ) (x : ℚ) : ℚ :=
  if dom.2 = dom.1 then (rng.1 + rng.2) / 2
  else rng.1 + (x - dom.1) / (dom.2 - dom.1) * (rng.2 - rng.1)

/-- `invert` of a d3 linear scale; a degenerate range yields the middle
of the domain. -/
def linearInvert (dom rng : ℚ × ℚ) (r : ℚ) : ℚ :=
  if rng.2 = rng.1 then (dom.1 + dom.2) / 2
  else dom.1 + (r - rng.1) / (rng.2 - rng.1) * (dom.2 - dom.1)

/-! ## d3 ticks and nicing (d3-array `ticks.js`, d3-scale `nice`)

`tickIncrement(start, stop, count)` returns the tick step for the
interval, encoded d3-style: a positive return value is the step itself,
a negative return value `-k` encodes the fractional step `1/k`. The
floating-point comparisons `error >= Math.sqrt(50|10|2)` are decided
exactly by squaring (the error is a positive rational, never equal to
an irrational square root). A non-positive raw step (possible only for
a degenerate or reversed interval, where the JS code produces an
infinite or NaN value that every caller then treats as "no usable
step") is encoded as `0`. -/

def tickFactor (error : ℚ) : ℚ :=
  if 50 ≤ error ^ 2 then 10
  else if 10 ≤ error ^ 2 then 5
  else if 2 ≤ error ^ 2 then 2
  else 1

def tickIncrement (start stop count : ℚ) : ℚ :=
  let step := (stop - start) / max 0 count
  if step ≤ 0 then 0
  else
    let power : ℤ := Int.log 10 step
    let error := step / (10 : ℚ) ^ power
    if 0 ≤ power then tickFactor error * (10 : ℚ) ^ power
    else -((10 : ℚ) ^ (-power)) / tickFactor error

/-- `d3.ticks(start, stop, count)`. `Math.round` rounds half toward
positive infinity, exactly as Mathlib's `round` on `ℚ`. -/
def d3Ticks (start stop count : ℚ) : List ℚ :=
  if count ≤ 0 then []
  else if start = stop then [start]
  else
    let reverse := stop < start
    let s := if reverse then stop else start
    let t := if reverse then start else stop
    let step := tickIncrement s t count
    if step = 0 then []
    else
      let l :=
        if 0 < step then
          let r0 : ℤ := round (s / step)
          let r0 := if (r0 : ℚ) * step < s then r0 + 1 else r0
          let r1 : ℤ := round (t / step)
          let r1 := if t < (r1 : ℚ) * step then r1 - 1 else r1
          (List.range (r1 - r0 + 1).toNat).map fun i => ((r0 + i : ℤ) : ℚ) * step
        else
          let inc := -step
          let r0 : ℤ := round (s * inc)
          let r0 := if (r0 : ℚ) / inc < s then r0 + 1 else r0
          let r1 : ℤ := round (t * inc)
          let r1 := if t < (r1 : ℚ) / inc then r1 - 1 else r1
          (List.range (r1 - r0 + 1).toNat).map fun i => ((r0 + i : ℤ) : ℚ) / inc
      if reverse then l.reverse else l

/-- The iteration inside d3-scale's `nice(count)`: repeatedly round the
current bounds outward to the current tick step, stopping (and
committing the rounded bounds) once the step stabilizes; if the loop
exhausts its 10 iterations or the step degenerates, the ORIGINAL domain
`orig` is kept, exactly as the JS loop leaves the domain untouched in
those branches. -/
def niceAsc (orig : ℚ × ℚ) (count : ℚ) : ℕ → Option ℚ → ℚ → ℚ → ℚ × ℚ
  | 0, _, _, _ => orig
  | n + 1, prestep, start, stop =>
    let step := tickIncrement start stop count
    if prestep = some step then (start, stop)
    else if 0 < step then
      niceAsc orig count n (some step)
        ((⌊start / step⌋ : ℚ) * step) ((⌈stop / step⌉ : ℚ) * step)
    else if step < 0 then
      niceAsc orig count n (some step)
        ((⌈start * step⌉ : ℚ) / step) ((⌊stop * step⌋ : ℚ) / step)
    else orig

/-- `scale.nice()` with the default tick count, acting on a domain pair.
A degenerate domain is left unchanged (the JS iteration immediately
degenerates to NaN bounds and bails out without touching the domain). -/
def d3Nice (d0 d1 count : ℚ) : ℚ × ℚ :=
  if d0 < d1 then niceAsc (d0, d1) count 10 none d0 d1
  else if d1 < d0 then
    let p := niceAsc (d1, d0) count 10 none d1 d0
    (p.2, p.1)
  else (d0, d1)

/-! ## Scale engine (src/main.ts lines 78-90) -/

/-- The flattened value list `[...data.map(xAccessor), ...data.map(yAccessor)]`. -/
def temperatureValues (data : List Datum) : List ℚ :=
  data.map xAccessor ++ data.map yAccessor

/-- `temperaturesExtent` (src/main.ts lines 78-80); `none` models the
`[undefined, undefined]` pair produced for an empty dataset. -/
def temperaturesExtent (data : List Datum) : Option (ℚ × ℚ) :=
  extentList (temperatureValues data)

/-- Domain of `xScale` (src/main.ts lines 81-85): the shared extent,
niced with the default tick count 10. -/
def xScaleDomain (data : List Datum) : Option (ℚ × ℚ) :=
  (temperaturesExtent data).map fun p => d3Nice p.1 p.2 10

/-- Domain of `yScale` (src/main.ts lines 86-90): the same shared
extent, niced with the default tick count 10. -/
def yScaleDomain (data : List Datum) : Option (ℚ × ℚ) :=
  (temperaturesExtent data).map fun p => d3Nice p.1 p.2 10

/-! ## Legend interaction (src/main.ts lines 193-275) -/

/-- The legend date scale's domain: `[parseDate("2000-01-01"),
parseDate("2000-12-31")]` as epoch milliseconds (2000 is a leap year,
so Dec 31 is day index 365 of the year). -/
def legendTickScaleDomain : ℚ × ℚ :=
  (JsDate.getTime ⟨2000, 0⟩, JsDate.getTime ⟨2000, 365 * msPerDay⟩)

def legendTickScaleRange : ℚ × ℚ := (0, legendWidth)

/-- `minDateToHighlight` in `onLegendMouseMove` (src/main.ts lines
246-248): the legend scale's inverse at the RAW pointer-centred left
bar edge `x - barWidth/2`. -/
def onLegendMinDate (x : ℚ) : ℚ :=
  linearInvert legendTickScaleDomain legendTickScaleRange
    (x - legendHighlightBarWidth / 2)

/-- `maxDateToHighlight` in `onLegendMouseMove` (src/main.ts lines
249-251): the inverse at the raw right bar edge `x + barWidth/2`. -/
def onLegendMaxDate (x : ℚ) : ℚ :=
  linearInvert legendTickScaleDomain legendTickScaleRange
    (x + legendHighlightBarWidth / 2)

/-- `barX` in `onLegendMouseMove` (src/main.ts lines 254-260):
`d3.median([0, x - barWidth/2, legendWidth - barWidth])`. -/
def onLegendBarX (x : ℚ) : ℚ :=
  d3Median3 0 (x - legendHighlightBarWidth / 2)
    (legendWidth - legendHighlightBarWidth)

/-! ## Histogram engine (src/main.ts lines 288-310)

`d3.bin()` with an explicit `.domain(...)` array and `.thresholds(20)`
(d3-array v3 `bin.js`): the threshold count is turned into
`d3.ticks(x0, x1, 20)`; since the domain accessor is NOT the default
`extent`, a last threshold coincident with the domain's upper bound is
popped; thresholds outside the domain are then stripped; the `m`
surviving thresholds cut the domain into `m + 1` bins, and each value
inside `[x0, x1]` is assigned to one bin, by quantization when the
first tick is aligned with `x0` (the recorded step is then a finite
number) and by `bisectRight` otherwise. A recorded step of `0` stands
for the non-finite step the JS code records for a degenerate domain,
which `isFinite` then routes to the bisection path. -/

structure HBin where
  x0 : ℚ
  x1 : ℚ
  count : ℕ
deriving DecidableEq, Repr

/-- `d3.bisect` (bisect right) on the sorted threshold list over its
full index range: the number of thresholds `≤ x`. -/
def bisectRight (tz : List ℚ) (x : ℚ) : ℕ :=
  tz.countP fun t => decide (t ≤ x)

/-- The surviving thresholds of `d3.bin` for an explicit domain
`[x0, x1]` and a threshold count hint `tn`. -/
def d3binThresholds (x0 x1 tn : ℚ) : List ℚ :=
  let tz := d3Ticks x0 x1 tn
  let tz :=
    if h : tz ≠ [] then (if x1 ≤ tz.getLast h then tz.dropLast else tz) else tz
  let tz := tz.dropWhile fun t => decide (t ≤ x0)
  (tz.reverse.dropWhile fun t => decide (x1 < t)).reverse

/-- The quantization step recorded by `d3.bin` when the first tick is
aligned with the domain's lower bound (`tz[0] <= x0`); `none` when the
ticks are unaligned (the JS variable stays `undefined`). -/
def d3binStep (x0 x1 tn : ℚ) : Option ℚ :=
  match (d3Ticks x0 x1 tn).head? with
  | some t => if t ≤ x0 then some (tickIncrement x0 x1 tn) else none
  | none => none

/-- The bin index assigned to an in-domain value `x`: the quantization
paths when a finite step was recorded (positive: direct quantization;
negative: fractional-step quantization with the off-by-one fixup),
bisection otherwise. -/
def binIndex (x0 : ℚ) (tz : List ℚ) (m : ℕ) (step? : Option ℚ) (x : ℚ) : ℕ :=
  match step? with
  | some s =>
    if 0 < s then min m (⌊(x - x0) / s⌋).toNat
    else if s < 0 then
      let j := (⌊(x0 - x) * s⌋).toNat
      min m (j + if hj : j < tz.length then (if tz.get ⟨j, hj⟩ ≤ x then 1 else 0) else 0)
    else bisectRight tz x
  | none => bisectRight tz x

/-- `d3.bin` with explicit domain `[x0, x1]`, threshold count hint
`tn`, applied to the accessor values `values`: bin `i` spans from
`tz[i-1]` (or `x0` for the first) to `tz[i]` (or `x1` for the last) and
counts the values inside the domain that are assigned index `i`. -/
def d3bin (x0 x1 tn : ℚ) (values : List ℚ) : List HBin :=
  let tz := d3binThresholds x0 x1 tn
  let m := tz.length
  let step? := d3binStep x0 x1 tn
  (List.range (m + 1)).map fun i =>
    { x0 := if i = 0 then x0 else tz.getD (i - 1) 0
      x1 := if i = m then x1 else tz.getD i 0
      count := values.countP fun x =>
        decide (x0 ≤ x) && decide (x ≤ x1) && (binIndex x0 tz m step? x == i) }

/-- `generateTopHistogram(data)` (src/main.ts lines 288-292, 300):
domain `xScale.domain()`, value accessor `xAccessor`, thresholds 20. -/
def generateTopHistogram (data : List Datum) : Option (List HBin) :=
  (xScaleDomain data).map fun dom => d3bin dom.1 dom.2 20 (data.map xAccessor)

/-- `generateRightHistogram(data)` (src/main.ts lines 294-298, 301):
domain `yScale.domain()`, value accessor `yAccessor`, thresholds 20. -/
def generateRightHistogram (data : List Datum) : Option (List HBin) :=
  (yScaleDomain data).map fun dom => d3bin dom.1 dom.2 20 (data.map yAccessor)

/-- `d3.bin` applied with the undefined `[NaN, NaN]` domain that an
empty dataset produces: `tickIncrement(NaN, NaN, 20)` is not finite, so
`d3.ticks` returns no thresholds; none is popped or stripped (every
comparison against NaN is false), so a single bin is built, and the
assignment test `x0 <= x && x <= x1` is false against the NaN bounds
for every value, so that bin counts nothing. Only the counts are
representable in ℚ (the bin's `x0`/`x1` are the NaN bounds, which no
consumer of the counts reads). -/
def d3binCountsUndefDomain (values : List ℚ) : List ℕ :=
  [values.countP fun _ => false]

/-- The counts of `generateTopHistogram(data)`'s bins, including the
empty-dataset path, where the generator runs on the undefined domain
and still yields one (empty) bin. -/
def topHistogramBinCounts (data : List Datum) : List ℕ :=
  match xScaleDomain data with
  | some dom => (d3bin dom.1 dom.2 20 (data.map xAccessor)).map HBin.count
  | none => d3binCountsUndefDomain (data.map xAccessor)

/-- The counts of `generateRightHistogram(data)`'s bins, including the
empty-dataset path. -/
def rightHistogramBinCounts (data : List Datum) : List ℕ :=
  match yScaleDomain data with
  | some dom => (d3bin dom.1 dom.2 20 (data.map yAccessor)).map HBin.count
  | none => d3binCountsUndefDomain (data.map yAccessor)

/-- Domain of `topHistogramYScale` (src/main.ts lines 303-306):
`d3.extent(topHistogramBins, d => d.length)`, defined on every input —
on an empty dataset the single empty bin gives the domain [0, 0]. -/
def topHistogramYScaleDomain (data : List Datum) : Option (ℚ × ℚ) :=
  extentList ((topHistogramBinCounts data).map fun c : ℕ => (c : ℚ))

/-- Domain of `rightHistogramYScale` (src/main.ts lines 307-310). -/
def rightHistogramYScaleDomain (data : List Datum) : Option (ℚ × ℚ) :=
  extentList ((rightHistogramBinCounts data).map fun c : ℕ => (c : ℚ))

/-! ## Hover coordinator (src/main.ts lines 349-397)

`px`, `py` stand for the hovered point's projected coordinates
`xScale(xAccessor(d))`, `yScale(yAccessor(d))` as computed inside
`onVoronoiMouseEnter`; `width` is the plot width. -/

structure RectAttrs where
  x : ℚ
  y : ℚ
  w : ℚ
  h : ℚ
deriving DecidableEq, Repr

/-- The `horizontalLine` rect attributes set in `onVoronoiMouseEnter`
(src/main.ts lines 380-387). -/
def horizontalHoverLine (width px py : ℚ) : RectAttrs :=
  { x := px
    y := py - hoverLineThickness / 2
    w := width - px + histogramHeight + histogramMargin
    h := hoverLineThickness }

/-- The `verticalLine` rect attributes set in `onVoronoiMouseEnter`
(src/main.ts lines 388-392). -/
def verticalHoverLine (px py : ℚ) : RectAttrs :=
  { x := px - hoverLineThickness / 2
    y := -histogramHeight - histogramMargin
    w := hoverLineThickness
    h := py + histogramHeight + histogramMargin }

/-- `d3.format(".1f")`, modelled as rounding to one decimal place. -/
def formatNumber (q : ℚ) : ℚ := (round (q * 10) : ℚ) / 10

/-- The value written into the tooltip's `#min-temperature` field
(src/main.ts line 395): `formatNumber(yAccessor(d))`. -/
def tooltipMinTemperatureText (d : Datum) : ℚ := formatNumber (yAccessor d)

/-- The value written into the tooltip's `#max-temperature` field
(src/main.ts line 396): `formatNumber(xAccessor(d))`. -/
def tooltipMaxTemperatureText (d : Datum) : ℚ := formatNumber (xAccessor d)

/-! ## Helper lemmas -/

theorem d3Median3_bounds (r hi : ℚ) (h0 : 0 ≤ hi) :
    0 ≤ d3Median3 0 r hi ∧ d3Median3 0 r hi ≤ hi := by
  by_cases h1 : r ≤ hi <;> by_cases h2 : (0 : ℚ) ≤ r <;>
    simp [d3Median3, List.insertionSort, List.orderedInsert, h1, h2, h0,
      List.getD]

theorem foldl_min_le_init (xs : List ℚ) (a : ℚ) : xs.foldl min a ≤ a := by
  induction xs generalizing a with
  | nil => simp
  | cons x t ih =>
    exact le_trans (ih (min a x)) (min_le_left a x)

theorem foldl_min_le_mem {xs : List ℚ} {x : ℚ} (hx : x ∈ xs) (a : ℚ) :
    xs.foldl min a ≤ x := by
  induction xs generalizing a with
  | nil => cases hx
  | cons y t ih =>
    rcases List.mem_cons.mp hx with h | h
    · subst h
      exact le_trans (foldl_min_le_init t (min a x)) (min_le_right a x)
    · exact ih h (min a y)

theorem init_le_foldl_max (xs : List ℚ) (a : ℚ) : a ≤ xs.foldl max a := by
  induction xs generalizing a with
  | nil => simp
  | cons x t ih =>
    exact le_trans (le_max_left a x) (ih (max a x))

theorem mem_le_foldl_max {xs : List ℚ} {x : ℚ} (hx : x ∈ xs) (a : ℚ) :
    x ≤ xs.foldl max a := by
  induction xs generalizing a with
  | nil => cases hx
  | cons y t ih =>
    rcases List.mem_cons.mp hx with h | h
    · subst h
      exact le_trans (le_max_right a x) (init_le_foldl_max t (max a x))
    · exact ih h (max a y)

theorem extent_some_of_ne_nil {l : List ℚ} (h : l ≠ []) :
    ∃ lo hi, extentList l = some (lo, hi) := by
  cases l with
  | nil => exact absurd rfl h
  | cons x xs => exact ⟨_, _, rfl⟩

theorem extent_bounds {l : List ℚ} {lo hi : ℚ}
    (he : extentList l = some (lo, hi)) : ∀ x ∈ l, lo ≤ x ∧ x ≤ hi := by
  cases l with
  | nil => simp [extentList] at he
  | cons y ys =>
    have hp : (ys.foldl min y, ys.foldl max y) = (lo, hi) :=
      Option.some.inj he
    obtain ⟨h1, h2⟩ := Prod.mk.injEq _ _ _ _ ▸ hp
    intro x hx
    rcases List.mem_cons.mp hx with h | h
    · subst h
      exact ⟨h1 ▸ foldl_min_le_init ys x, h2 ▸ init_le_foldl_max ys x⟩
    · exact ⟨h1 ▸ foldl_min_le_mem h y, h2 ▸ mem_le_foldl_max h y⟩

theorem niceAsc_bounds (count : ℚ) (n : ℕ) :
    ∀ (p : Option ℚ) (a b start stop : ℚ), start ≤ a → b ≤ stop →
      (niceAsc (a, b) count n p start stop).1 ≤ a ∧
        b ≤ (niceAsc (a, b) count n p start stop).2 := by
  induction n with
  | zero =>
    intro p a b s t h1 h2
    simp [niceAsc]
  | succ n ih =>
    intro p a b s t h1 h2
    rw [niceAsc]
    set step := tickIncrement s t count with hstep
    by_cases hpre : p = some step
    · simp only [hpre, if_pos rfl]
      exact ⟨h1, h2⟩
    · rw [if_neg hpre]
      by_cases hpos : 0 < step
      · rw [if_pos hpos]
        apply ih
        · calc (⌊s / step⌋ : ℚ) * step ≤ s / step * step :=
                mul_le_mul_of_nonneg_right (Int.floor_le _) (le_of_lt hpos)
            _ = s := div_mul_cancel₀ s (ne_of_gt hpos)
            _ ≤ a := h1
        · calc b ≤ t := h2
            _ = t / step * step := (div_mul_cancel₀ t (ne_of_gt hpos)).symm
            _ ≤ (⌈t / step⌉ : ℚ) * step :=
                mul_le_mul_of_nonneg_right (Int.le_ceil _) (le_of_lt hpos)
      · rw [if_neg hpos]
        by_cases hneg : step < 0
        · rw [if_pos hneg]
          apply ih
          · have hle : s * step ≤ (⌈s * step⌉ : ℚ) := Int.le_ceil _
            calc (⌈s * step⌉ : ℚ) / step ≤ s * step / step := by
                  rw [div_le_div_right_of_neg hneg]
                  exact hle
              _ = s := mul_div_cancel_right₀ s (ne_of_lt hneg)
              _ ≤ a := h1
          · have hle : (⌊t * step⌋ : ℚ) ≤ t * step := Int.floor_le _
            calc b ≤ t := h2
              _ = t * step / step := (mul_div_cancel_right₀ t (ne_of_lt hneg)).symm
              _ ≤ (⌊t * step⌋ : ℚ) / step := by
                  rw [div_le_div_right_of_neg hneg]
                  exact hle
        · rw [if_neg hneg]
          simp

theorem nice_widens (d0 d1 count : ℚ) (h : d0 ≤ d1) :
    (d3Nice d0 d1 count).1 ≤ d0 ∧ d1 ≤ (d3Nice d0 d1 count).2 := by
  unfold d3Nice
  rcases lt_or_eq_of_le h with hlt | heq
  · rw [if_pos hlt]
    exact niceAsc_bounds count 10 none d0 d1 d0 d1 le_rfl le_rfl
  · subst heq
    simp

theorem sum_map_add {α : Type} (L : List α) (f g : α → ℕ) :
    (L.map fun i => f i + g i).sum = (L.map f).sum + (L.map g).sum := by
  induction L with
  | nil => simp
  | cons a t ih =>
    simp [ih]
    omega

theorem sum_indicator_range (n k : ℕ) :
    ((List.range n).map fun i => if k = i then 1 else 0).sum
      = if k < n then 1 else 0 := by
  induction n with
  | zero => simp
  | succ n ih =>
    rw [List.range_succ, List.map_append, List.sum_append, ih]
    rcases lt_trichotomy k n with h | h | h
    · simp [Nat.ne_of_lt h, h, Nat.lt_succ_of_lt h]
    · subst h
      simp
    · have h1 : ¬k = n := Nat.ne_of_gt h
      have h2 : ¬k < n := by omega
      have h3 : ¬k < n + 1 := by omega
      simp [h1, h2, h3]

theorem sum_range_countP (l : List ℚ) (q : ℚ → Bool) (f : ℚ → ℕ) (m : ℕ)
    (hf : ∀ x, q x = true → f x ≤ m) :
    ((List.range (m + 1)).map fun i =>
        l.countP fun x => q x && (f x == i)).sum = l.countP q := by
  induction l with
  | nil => simp
  | cons a t ih =>
    simp only [List.countP_cons]
    rw [sum_map_add (List.range (m + 1))
      (fun i => t.countP fun x => q x && (f x == i))
      (fun i => if (q a && (f a == i)) = true then 1 else 0), ih]
    congr 1
    cases hq : q a with
    | false => simp [hq]
    | true =>
      have hfa : f a ≤ m := hf a hq
      have hrw : ∀ i : ℕ, (if (true && (f a == i)) = true then (1 : ℕ) else 0)
          = if f a = i then 1 else 0 := by
        intro i
        simp
      simp only [hrw]
      rw [sum_indicator_range (m + 1) (f a)]
      simp [Nat.lt_succ_of_le hfa]

theorem bisectRight_le (tz : List ℚ) (x : ℚ) : bisectRight tz x ≤ tz.length :=
  List.countP_le_length _

theorem binIndex_le (x0 : ℚ) (tz : List ℚ) (step? : Option ℚ) (x : ℚ) :
    binIndex x0 tz tz.length step? x ≤ tz.length := by
  cases step? with
  | none => exact bisectRight_le tz x
  | some s =>
    have hunf : binIndex x0 tz tz.length (some s) x =
        if 0 < s then min tz.length (⌊(x - x0) / s⌋).toNat
        else if s < 0 then
          min tz.length ((⌊(x0 - x) * s⌋).toNat +
            if hj : (⌊(x0 - x) * s⌋).toNat < tz.length then
              (if tz.get ⟨(⌊(x0 - x) * s⌋).toNat, hj⟩ ≤ x then 1 else 0)
            else 0)
        else bisectRight tz x := rfl
    rw [hunf]
    split_ifs <;> first
      | exact min_le_left _ _
      | exact bisectRight_le tz x

theorem d3bin_sum (x0 x1 tn : ℚ) (values : List ℚ)
    (h : ∀ v ∈ values, x0 ≤ v ∧ v ≤ x1) :
    ((d3bin x0 x1 tn values).map HBin.count).sum = values.length := by
  unfold d3bin
  rw [List.map_map]
  have hq : ∀ v, (decide (x0 ≤ v) && decide (v ≤ x1)) = true →
      binIndex x0 (d3binThresholds x0 x1 tn) (d3binThresholds x0 x1 tn).length
        (d3binStep x0 x1 tn) v ≤ (d3binThresholds x0 x1 tn).length :=
    fun v _ => binIndex_le x0 _ _ v
  rw [show HBin.count ∘ (fun i =>
      ({ x0 := if i = 0 then x0 else (d3binThresholds x0 x1 tn).getD (i - 1) 0
         x1 := if i = (d3binThresholds x0 x1 tn).length then x1
               else (d3binThresholds x0 x1 tn).getD i 0
         count := values.countP fun x => decide (x0 ≤ x) && decide (x ≤ x1) &&
           (binIndex x0 (d3binThresholds x0 x1 tn)
             (d3binThresholds x0 x1 tn).length (d3binStep x0 x1 tn) x == i) } : HBin))
      = fun i => values.countP fun x =>
          (decide (x0 ≤ x) && decide (x ≤ x1)) &&
          (binIndex x0 (d3binThresholds x0 x1 tn)
            (d3binThresholds x0 x1 tn).length (d3binStep x0 x1 tn) x == i) from rfl]
  rw [sum_range_countP values _ _ _ hq]
  apply List.countP_eq_length.mpr
  intro v hv
  have := h v hv
  simp [this.1, this.2]

theorem range_map_edge_x0 (tz : List ℚ) (lo : ℚ) :
    ((List.range (tz.length + 1)).map fun i =>
        if i = 0 then lo else tz.getD (i - 1) 0) = lo :: tz := by
  apply List.ext_getElem
  · simp
  · intro i h1 h2
    simp only [List.getElem_map, List.getElem_range]
    cases i with
    | zero => simp
    | succ j =>
      have hj : j < tz.length := by
        simp at h2
        omega
      simp only [if_neg (Nat.succ_ne_zero j), Nat.succ_sub_one,
        List.getElem_cons_succ]
      exact List.getD_eq_getElem tz 0 hj

theorem range_map_edge_x1 (tz : List ℚ) (hi : ℚ) :
    ((List.range (tz.length + 1)).map fun i =>
        if i = tz.length then hi else tz.getD i 0) = tz ++ [hi] := by
  apply List.ext_getElem
  · simp
  · intro i h1 h2
    simp only [List.getElem_map, List.getElem_range]
    by_cases h : i = tz.length
    · subst h
      simp
    · have hi2 : i < tz.length := by
        simp at h1
        omega
      rw [if_neg h, List.getD_eq_getElem tz 0 hi2,
        List.getElem_append_left hi2]

theorem d3bin_map_x0 (x0 x1 tn : ℚ) (values : List ℚ) :
    (d3bin x0 x1 tn values).map HBin.x0 = x0 :: d3binThresholds x0 x1 tn := by
  unfold d3bin
  rw [List.map_map]
  exact range_map_edge_x0 (d3binThresholds x0 x1 tn) x0

theorem d3bin_map_x1 (x0 x1 tn : ℚ) (values : List ℚ) :
    (d3bin x0 x1 tn values).map HBin.x1 = d3binThresholds x0 x1 tn ++ [x1] := by
  unfold d3bin
  rw [List.map_map]
  exact range_map_edge_x1 (d3binThresholds x0 x1 tn) x1

theorem temperatureValues_ne_nil {data : List Datum} (h : data ≠ []) :
    temperatureValues data ≠ [] := by
  cases data with
  | nil => exact absurd rfl h
  | cons d rest => simp [temperatureValues]

theorem mem_temperatureValues_of_mem_min {data : List Datum} {v : ℚ}
    (hv : v ∈ data.map xAccessor) : v ∈ temperatureValues data :=
  List.mem_append_left _ hv

theorem mem_temperatureValues_of_mem_max {data : List Datum} {v : ℚ}
    (hv : v ∈ data.map yAccessor) : v ∈ temperatureValues data :=
  List.mem_append_right _ hv

theorem d3Median3_of_mid (r hi : ℚ) (h1 : 0 ≤ r) (h2 : r ≤ hi) :
    d3Median3 0 r hi = r := by
  simp [d3Median3, List.insertionSort, List.orderedInsert, h1, h2,
    le_trans h1 h2]

/-! ## Claims -/

/-- C1: for every pointer x-coordinate (any rational, including positions
far outside the legend strip), the highlight bar's left edge computed by
`onLegendMouseMove` equals the median of
{0, x - barWidth/2, legendWidth - barWidth} and lies in the closed
interval [0, legendWidth - barWidth]; in particular pointer x = -500
yields left edge 0 and pointer x = legendWidth + 500 yields left edge
legendWidth - barWidth. -/
theorem c1_legend_bar_clamped (x : ℚ) :
    onLegendBarX x
      = d3Median3 0 (x - legendHighlightBarWidth / 2)
          (legendWidth - legendHighlightBarWidth) ∧
    0 ≤ onLegendBarX x ∧
    onLegendBarX x ≤ legendWidth - legendHighlightBarWidth ∧
    onLegendBarX (-500) = 0 ∧
    onLegendBarX (legendWidth + 500) = legendWidth - legendHighlightBarWidth := by
  have hb := d3Median3_bounds (x - legendHighlightBarWidth / 2)
    (legendWidth - legendHighlightBarWidth)
    (by norm_num [legendWidth, legendHighlightBarWidth])
  refine ⟨rfl, hb.1, hb.2, ?_, ?_⟩ <;>
    with_unfolding_all decide

/-- C3: the x scale's domain and the y scale's domain are both obtained
from the shared `temperaturesExtent` by the same nicing (default tick
count 10), so they are identical after construction for every non-empty
input. -/
theorem c3_domains_equal (data : List Datum) (_h : data ≠ []) :
    xScaleDomain data
      = (temperaturesExtent data).map (fun p => d3Nice p.1 p.2 10) ∧
    yScaleDomain data
      = (temperaturesExtent data).map (fun p => d3Nice p.1 p.2 10) ∧
    xScaleDomain data = yScaleDomain data :=
  ⟨rfl, rfl, rfl⟩

theorem c3_domains_equal_witness :
    ([⟨5, 10, ⟨2000, 0⟩⟩] : List Datum) ≠ [] ∧
    xScaleDomain [⟨5, 10, ⟨2000, 0⟩⟩] = yScaleDomain [⟨5, 10, ⟨2000, 0⟩⟩] :=
  ⟨by simp, (c3_domains_equal [⟨5, 10, ⟨2000, 0⟩⟩] (by simp)).2.2⟩

/-- C4 counterexample: evaluating the color accessor on a datum whose
date is in year 1999 leaves the datum changed (its stored date's year
becomes 2000), refuting "no operation of the engine mutates a DataPoint
after load". -/
theorem c4_counterexample :
    (colorAccessorRun ⟨5, 10, ⟨1999, 0⟩⟩).2 ≠ (⟨5, 10, ⟨1999, 0⟩⟩ : Datum) := by
  decide

/-- C4 amended: every accessor evaluation leaves `tempmin` and `tempmax`
unchanged, and `xAccessor`/`yAccessor` are pure reads, but the color
accessor mutates `datetime` in place by setting its year to the
reference year 2000 (keeping the rest of the date); the mutation is
idempotent, so a datum is changed at most once, on its first color
evaluation. -/
theorem c4_amended (d : Datum) :
    (colorAccessorRun d).2.tempmin = d.tempmin ∧
    (colorAccessorRun d).2.tempmax = d.tempmax ∧
    (colorAccessorRun d).2.datetime.year = colorScaleYear ∧
    (colorAccessorRun d).2.datetime.msOfYear = d.datetime.msOfYear ∧
    colorAccessorRun ((colorAccessorRun d).2) = colorAccessorRun d ∧
    xAccessor d = d.tempmin ∧ yAccessor d = d.tempmax :=
  ⟨rfl, rfl, rfl, rfl, rfl, rfl, rfl⟩

/-- C8 counterexample: for the empty dataset the x scale's domain is the
undefined extent passed through nicing (modelled `none`, standing for
the `[NaN, NaN]` pair the code produces), not the degenerate domain
`[0, 0]` the claim asserts. -/
theorem c8_counterexample :
    xScaleDomain [] ≠ some ((0 : ℚ), (0 : ℚ)) := by
  decide

/-- C8 amended: on empty input the engine does not fault: the
temperatures extent is undefined, so the x and y scales' domains are
the undefined `[NaN, NaN]` pair passed through nicing (modelled
`none`), NOT the degenerate `[0, 0]` the claim asserts; the histogram
generators still run on that undefined domain and each produces a
single bin of count 0, so the derived count scales DO get the genuine
numeric domain [0, 0]. -/
theorem c8_amended :
    temperaturesExtent [] = none ∧ xScaleDomain [] = none ∧
    yScaleDomain [] = none ∧
    topHistogramBinCounts [] = [0] ∧ rightHistogramBinCounts [] = [0] ∧
    topHistogramYScaleDomain [] = some (0, 0) ∧
    rightHistogramYScaleDomain [] = some (0, 0) := by
  decide

/-- C9 counterexample: at plot width 500 and projected point (100, 100),
the horizontal hover guide ends at x = 580 = width + histogramMargin +
histogramHeight, not at the near edge width + histogramMargin = 510,
and the vertical hover guide starts at y = -80, not at the near edge
-histogramMargin = -10. -/
theorem c9_counterexample :
    (horizontalHoverLine 500 100 100).x + (horizontalHoverLine 500 100 100).w
      ≠ 500 + histogramMargin ∧
    (verticalHoverLine 100 100).y ≠ -histogramMargin := by
  constructor <;>
    norm_num [horizontalHoverLine, verticalHoverLine, histogramMargin,
      histogramHeight, hoverLineThickness]

/-- C9 amended: the two perpendicular hover guide segments extend from
the projected point all the way to the FAR edge of the corresponding
marginal histogram, spanning the full band of thickness
histogramHeight: the horizontal segment runs from x = px to
x = width + histogramMargin + histogramHeight (centred vertically on
py), and the vertical segment runs from y = -(histogramMargin +
histogramHeight) down to y = py (centred horizontally on px). -/
theorem c9_amended (width px py : ℚ) :
    (horizontalHoverLine width px py).x = px ∧
    (horizontalHoverLine width px py).x + (horizontalHoverLine width px py).w
      = width + histogramMargin + histogramHeight ∧
    (horizontalHoverLine width px py).y
        + (horizontalHoverLine width px py).h / 2 = py ∧
    (verticalHoverLine px py).y = -(histogramMargin + histogramHeight) ∧
    (verticalHoverLine px py).y + (verticalHoverLine px py).h = py ∧
    (verticalHoverLine px py).x + (verticalHoverLine px py).w / 2 = px := by
  refine ⟨rfl, ?_, ?_, ?_, ?_, ?_⟩ <;>
    simp [horizontalHoverLine, verticalHoverLine, histogramMargin,
      histogramHeight, hoverLineThickness] <;>
    ring

/-- C10: the tooltip field `#min-temperature` is populated with the
formatted `yAccessor(d)`, which is `d.tempmax`, and `#max-temperature`
with the formatted `xAccessor(d)`, which is `d.tempmin`: the
minimum-temperature label displays the maximum temperature and vice
versa. -/
theorem c10_tooltip_fields_swapped (d : Datum) :
    tooltipMinTemperatureText d = formatNumber d.tempmax ∧
    tooltipMaxTemperatureText d = formatNumber d.tempmin :=
  ⟨rfl, rfl⟩

/-- C2: for every non-empty dataset, the sum of the bin counts of each
histogram generator (top and right) equals the number of data points:
the niced scale domain contains every accessor value (all modelled
values are finite), every in-domain value is assigned to exactly one
bin, and no value is counted twice. -/
theorem c2_histogram_counts_complete (data : List Datum) (h : data ≠ []) :
    ∃ tb rb, generateTopHistogram data = some tb ∧
      generateRightHistogram data = some rb ∧
      (tb.map HBin.count).sum = data.length ∧
      (rb.map HBin.count).sum = data.length := by
  have hne := temperatureValues_ne_nil h
  obtain ⟨lo, hi, hex⟩ := extent_some_of_ne_nil hne
  have hbnd := extent_bounds hex
  have hlohi : lo ≤ hi := by
    obtain ⟨d, rest, rfl⟩ := List.exists_cons_of_ne_nil h
    have hmem : xAccessor d ∈ temperatureValues (d :: rest) :=
      mem_temperatureValues_of_mem_min (by simp)
    have hd := hbnd _ hmem
    linarith [hd.1, hd.2]
  have hnice := nice_widens lo hi 10 hlohi
  refine ⟨d3bin (d3Nice lo hi 10).1 (d3Nice lo hi 10).2 20 (data.map xAccessor),
          d3bin (d3Nice lo hi 10).1 (d3Nice lo hi 10).2 20 (data.map yAccessor),
          ?_, ?_, ?_, ?_⟩
  · simp [generateTopHistogram, xScaleDomain, temperaturesExtent, hex]
  · simp [generateRightHistogram, yScaleDomain, temperaturesExtent, hex]
  · rw [d3bin_sum]
    · exact List.length_map _ _
    · intro v hv
      have hb := hbnd v (mem_temperatureValues_of_mem_min hv)
      exact ⟨le_trans hnice.1 hb.1, le_trans hb.2 hnice.2⟩
  · rw [d3bin_sum]
    · exact List.length_map _ _
    · intro v hv
      have hb := hbnd v (mem_temperatureValues_of_mem_max hv)
      exact ⟨le_trans hnice.1 hb.1, le_trans hb.2 hnice.2⟩

theorem c2_histogram_counts_complete_witness :
    ([⟨6, 44, ⟨2000, 0⟩⟩] : List Datum) ≠ [] ∧
    (∃ tb rb, generateTopHistogram [⟨6, 44, ⟨2000, 0⟩⟩] = some tb ∧
      generateRightHistogram [⟨6, 44, ⟨2000, 0⟩⟩] = some rb ∧
      (tb.map HBin.count).sum = 1 ∧ (rb.map HBin.count).sum = 1) :=
  ⟨by simp, by
    simpa using c2_histogram_counts_complete [⟨6, 44, ⟨2000, 0⟩⟩] (by simp)⟩

/-- C5 counterexample: at pointer x = -500 the handler's
`minDateToHighlight` is the legend scale's inverse of the raw edge
-500 - barWidth/2, which differs from the inverse of the clamped bar's
left edge (0): the displayed date range follows the raw pointer, not
the clamped bar. -/
theorem c5_counterexample :
    onLegendMinDate (-500)
      ≠ linearInvert legendTickScaleDomain legendTickScaleRange
          (onLegendBarX (-500)) := by
  with_unfolding_all decide

/-- C5 amended: `minDateToHighlight`/`maxDateToHighlight` are obtained
by inverting the RAW pointer-centred bar edges x - barWidth/2 and
x + barWidth/2 through the legend's date scale, without clamping; they
agree with the inverses of the clamped bar's edges only when the raw
left edge already lies inside [0, legendWidth - barWidth], so for a
pointer far outside the strip the displayed range follows the raw
pointer position. -/
theorem c5_amended (x : ℚ) :
    onLegendMinDate x
      = linearInvert legendTickScaleDomain legendTickScaleRange
          (x - legendHighlightBarWidth / 2) ∧
    onLegendMaxDate x
      = linearInvert legendTickScaleDomain legendTickScaleRange
          (x + legendHighlightBarWidth / 2) ∧
    (0 ≤ x - legendHighlightBarWidth / 2 →
      x - legendHighlightBarWidth / 2 ≤ legendWidth - legendHighlightBarWidth →
      onLegendMinDate x
        = linearInvert legendTickScaleDomain legendTickScaleRange
            (onLegendBarX x)) := by
  refine ⟨rfl, rfl, fun h1 h2 => ?_⟩
  have hbar : onLegendBarX x = x - legendHighlightBarWidth / 2 :=
    d3Median3_of_mid _ _ h1 h2
  rw [hbar]
  rfl

theorem c5_amended_witness :
    (0 : ℚ) ≤ 100 - legendHighlightBarWidth / 2 ∧
    (100 : ℚ) - legendHighlightBarWidth / 2
      ≤ legendWidth - legendHighlightBarWidth ∧
    onLegendMinDate 100
      = linearInvert legendTickScaleDomain legendTickScaleRange
          (onLegendBarX 100) :=
  ⟨by norm_num [legendHighlightBarWidth, legendWidth],
   by norm_num [legendHighlightBarWidth, legendWidth],
   (c5_amended 100).2.2 (by norm_num [legendHighlightBarWidth, legendWidth])
     (by norm_num [legendHighlightBarWidth, legendWidth])⟩

/-- C6 counterexample: for the dataset with the single point
(tempmin 5, tempmax 5) the top histogram has one bin of count 1, so the
count scale's domain is the extent (1, 1) of the counts: its lower
bound is 1, not the constant 0 the claim asserts. -/
theorem c6_counterexample :
    topHistogramYScaleDomain [⟨5, 5, ⟨2000, 0⟩⟩] = some (1, 1) ∧
    (some ((1 : ℚ), (1 : ℚ)) : Option (ℚ × ℚ)) ≠ some (0, 1) := by
  constructor
  · with_unfolding_all decide
  · with_unfolding_all decide

/-- C6 amended: each histogram's derived count scale has domain equal
to the EXTENT (minimum, maximum) of the bin counts, which equals
[0, max(bin.count)] only when some bin is empty; when every bin is
non-empty the lower bound is positive. -/
theorem c6_amended (data : List Datum) (h : data ≠ []) :
    ∃ tb rb, generateTopHistogram data = some tb ∧
      generateRightHistogram data = some rb ∧
      topHistogramYScaleDomain data
        = extentList (tb.map fun b => (b.count : ℚ)) ∧
      rightHistogramYScaleDomain data
        = extentList (rb.map fun b => (b.count : ℚ)) := by
  have hne := temperatureValues_ne_nil h
  obtain ⟨lo, hi, hex⟩ := extent_some_of_ne_nil hne
  refine ⟨d3bin (d3Nice lo hi 10).1 (d3Nice lo hi 10).2 20 (data.map xAccessor),
          d3bin (d3Nice lo hi 10).1 (d3Nice lo hi 10).2 20 (data.map yAccessor),
          ?_, ?_, ?_, ?_⟩
  · simp [generateTopHistogram, xScaleDomain, temperaturesExtent, hex]
  · simp [generateRightHistogram, yScaleDomain, temperaturesExtent, hex]
  · have hdom : xScaleDomain data = some (d3Nice lo hi 10) := by
      simp [xScaleDomain, temperaturesExtent, hex]
    have hfun : ((fun c : ℕ => (c : ℚ)) ∘ HBin.count)
        = fun b : HBin => (b.count : ℚ) := rfl
    simp only [topHistogramYScaleDomain, topHistogramBinCounts, hdom,
      List.map_map, hfun]
  · have hdom : yScaleDomain data = some (d3Nice lo hi 10) := by
      simp [yScaleDomain, temperaturesExtent, hex]
    have hfun : ((fun c : ℕ => (c : ℚ)) ∘ HBin.count)
        = fun b : HBin => (b.count : ℚ) := rfl
    simp only [rightHistogramYScaleDomain, rightHistogramBinCounts, hdom,
      List.map_map, hfun]

theorem c6_amended_witness :
    ([⟨5, 5, ⟨2000, 0⟩⟩] : List Datum) ≠ [] ∧
    (∃ tb rb, generateTopHistogram [⟨5, 5, ⟨2000, 0⟩⟩] = some tb ∧
      generateRightHistogram [⟨5, 5, ⟨2000, 0⟩⟩] = some rb ∧
      topHistogramYScaleDomain [⟨5, 5, ⟨2000, 0⟩⟩]
        = extentList (tb.map fun b => (b.count : ℚ)) ∧
      rightHistogramYScaleDomain [⟨5, 5, ⟨2000, 0⟩⟩]
        = extentList (rb.map fun b => (b.count : ℚ))) :=
  ⟨by simp, c6_amended [⟨5, 5, ⟨2000, 0⟩⟩] (by simp)⟩

/-- C7 counterexample: for the dataset with the single point
(tempmin 6, tempmax 44) the niced domain is [5, 45] and the top
histogram generator produces 21 bins, not 20, and the bins are not all
of equal width: the first bin [5, 6) has width 1 while the second bin
[6, 8) has width 2. -/
theorem c7_counterexample :
    (generateTopHistogram [⟨6, 44, ⟨2000, 0⟩⟩]).map List.length = some 21 ∧
    (21 : ℕ) ≠ 20 ∧
    (generateTopHistogram [⟨6, 44, ⟨2000, 0⟩⟩]).map
        (fun bins => ((bins.getD 0 ⟨0, 0, 0⟩).x1 - (bins.getD 0 ⟨0, 0, 0⟩).x0,
          (bins.getD 1 ⟨0, 0, 0⟩).x1 - (bins.getD 1 ⟨0, 0, 0⟩).x0))
      = some (1, 2) ∧ (1 : ℚ) ≠ 2 := by
  refine ⟨?_, by decide, ?_, by norm_num⟩
  · with_unfolding_all decide
  · with_unfolding_all decide

/-- C7 amended: each histogram generator partitions its scale's domain
into contiguous half-open bins that cover the whole domain (the
successive bin edges are the domain's lower bound, the surviving d3
tick thresholds, and the domain's upper bound, the last bin closed on
the right); the thresholds come from `d3.ticks` with hint 20, so the
number of bins need not be exactly 20 and the first and last bins may
be narrower than the equal-width interior tick bins. -/
theorem c7_amended (data : List Datum) (h : data ≠ []) :
    ∃ dom tb rb, xScaleDomain data = some dom ∧
      yScaleDomain data = some dom ∧
      generateTopHistogram data = some tb ∧
      generateRightHistogram data = some rb ∧
      tb.map HBin.x0 = dom.1 :: d3binThresholds dom.1 dom.2 20 ∧
      tb.map HBin.x1 = d3binThresholds dom.1 dom.2 20 ++ [dom.2] ∧
      rb.map HBin.x0 = dom.1 :: d3binThresholds dom.1 dom.2 20 ∧
      rb.map HBin.x1 = d3binThresholds dom.1 dom.2 20 ++ [dom.2] := by
  have hne := temperatureValues_ne_nil h
  obtain ⟨lo, hi, hex⟩ := extent_some_of_ne_nil hne
  refine ⟨d3Nice lo hi 10,
    d3bin (d3Nice lo hi 10).1 (d3Nice lo hi 10).2 20 (data.map xAccessor),
    d3bin (d3Nice lo hi 10).1 (d3Nice lo hi 10).2 20 (data.map yAccessor),
    ?_, ?_, ?_, ?_, ?_, ?_, ?_, ?_⟩
  · simp [xScaleDomain, temperaturesExtent, hex]
  · simp [yScaleDomain, temperaturesExtent, hex]
  · simp [generateTopHistogram, xScaleDomain, temperaturesExtent, hex]
  · simp [generateRightHistogram, yScaleDomain, temperaturesExtent, hex]
  · exact d3bin_map_x0 _ _ _ _
  · exact d3bin_map_x1 _ _ _ _
  · exact d3bin_map_x0 _ _ _ _
  · exact d3bin_map_x1 _ _ _ _

theorem c7_amended_witness :
    ([⟨6, 44, ⟨2000, 0⟩⟩] : List Datum) ≠ [] ∧
    (∃ dom tb rb, xScaleDomain [⟨6, 44, ⟨2000, 0⟩⟩] = some dom ∧
      yScaleDomain [⟨6, 44, ⟨2000, 0⟩⟩] = some dom ∧
      generateTopHistogram [⟨6, 44, ⟨2000, 0⟩⟩] = some tb ∧
      generateRightHistogram [⟨6, 44, ⟨2000, 0⟩⟩] = some rb ∧
      tb.map HBin.x0 = dom.1 :: d3binThresholds dom.1 dom.2 20 ∧
      tb.map HBin.x1 = d3binThresholds dom.1 dom.2 20 ++ [dom.2] ∧
      rb.map HBin.x0 = dom.1 :: d3binThresholds dom.1 dom.2 20 ∧
      rb.map HBin.x1 = d3binThresholds dom.1 dom.2 20 ++ [dom.2]) :=
  ⟨by simp, c7_amended [⟨6, 44, ⟨2000, 0⟩⟩] (by simp)⟩

end WeatherScatter
